import Mathlib

/-!
Shallow embedding of the easyEnergy client library (python-easyenergy).

Time model: instants are minutes since an arbitrary epoch, as integers.
Calendar dates are day indices; a local timezone is a fixed offset in
minutes (the code obtains the local zone as a fixed-offset tzinfo via
astimezone, so a fixed offset is exact). Python floats are modelled as
rationals; round(x, n) is round-half-to-even at n decimal places.
Python dicts keyed by datetime are modelled as insertion-ordered
association lists with update-in-place on duplicate keys.
-/

namespace EasyEnergy

/-- Round-half-to-even on rationals, to an integer (the rounding mode of
round() in Python 3). -/
def rhe (q : ℚ) : ℤ :=
  if q - ⌊q⌋ < 1/2 then ⌊q⌋
  else if 1/2 < q - ⌊q⌋ then ⌊q⌋ + 1
  else if ⌊q⌋ % 2 = 0 then ⌊q⌋ else ⌊q⌋ + 1

/-- round(q, n) in Python: round-half-to-even at n decimal places. -/
def pyRound (q : ℚ) (n : ℕ) : ℚ := (rhe (q * 10 ^ n) : ℚ) / 10 ^ n

/-- round(q, 5), used for all published prices. -/
def round5 (q : ℚ) : ℚ := pyRound q 5

/-- round(q, 2), used for percentages. -/
def round2 (q : ℚ) : ℚ := pyRound q 2

/-- A price mapping dict[datetime, float]: insertion-ordered association
list from instants (minutes since epoch) to prices. -/
abbrev Prices := List (Int × ℚ)

/-- Python dict insertion: update in place when the key is present,
append otherwise. -/
def dictInsert (d : Prices) (k : Int) (v : ℚ) : Prices :=
  if d.any (fun p => p.1 == k) then
    d.map (fun p => if p.1 == k then (k, v) else p)
  else d ++ [(k, v)]

/-- Python min() over a list of floats (None on an empty list, where
Python raises ValueError). -/
def pyMin : List ℚ → Option ℚ
  | [] => none
  | x :: xs => some (xs.foldl min x)

/-- Python max() over a list of floats (None on an empty list, where
Python raises ValueError). -/
def pyMax : List ℚ → Option ℚ
  | [] => none
  | x :: xs => some (xs.foldl max x)

/-- models._timed_value: scan the mapping in iteration order, keeping
round(price, 5) of every point whose bucket [timestamp, timestamp+1h)
contains the moment; the last match survives. -/
def timed_value (moment : Int) (prices : Prices) : Option ℚ :=
  prices.foldl
    (fun value p =>
      if p.1 ≤ moment ∧ moment < p.1 + 60 then some (round5 p.2) else value)
    none

/-- max(prices, key=prices.get): first pair attaining the maximal value,
replacing the current best only on strict increase. -/
def pyMaxByVal : Prices → Option (Int × ℚ)
  | [] => none
  | x :: xs => some (xs.foldl (fun best p => if best.2 < p.2 then p else best) x)

/-- min(prices, key=prices.get): first pair attaining the minimal value,
replacing the current best only on strict decrease. -/
def pyMinByVal : Prices → Option (Int × ℚ)
  | [] => none
  | x :: xs => some (xs.foldl (fun best p => if p.2 < best.2 then p else best) x)

/-- models._get_pricetime with func = max. -/
def get_pricetime_max (prices : Prices) : Option Int :=
  (pyMaxByVal prices).map Prod.fst

/-- models._get_pricetime with func = min. -/
def get_pricetime_min (prices : Prices) : Option Int :=
  (pyMinByVal prices).map Prod.fst

/-- One record of the electricity API response, after timestamp parsing:
strptime yields an aware instant, modelled as minutes since epoch. -/
structure EnergyRecord where
  timestamp : Int
  tariffUsage : ℚ
  tariffReturn : ℚ

/-- One record of the gas API response, after timestamp parsing. -/
structure GasRecord where
  timestamp : Int
  tariffUsage : ℚ

/-- models.Electricity: two parallel price mappings. -/
structure Electricity where
  usage_prices : Prices
  return_prices : Prices

/-- models.Gas: one price mapping. -/
structure Gas where
  prices : Prices

namespace Electricity

/-- Electricity.from_dict: fold the record list into the two mappings. -/
def from_dict (data : List EnergyRecord) : Electricity :=
  { usage_prices :=
      data.foldl (fun d item => dictInsert d item.timestamp item.tariffUsage) []
    return_prices :=
      data.foldl (fun d item => dictInsert d item.timestamp item.tariffReturn) [] }

/-- Electricity.price_at_time: choose the mapping by data_type, then
look up through _timed_value; the final conditional returns the value
whenever it is not None (the value == 0 disjunct is redundant since
None == 0 is false in Python). -/
def price_at_time (e : Electricity) (moment : Int) (dataType : String) : Option ℚ :=
  let data_list := if dataType == "return" then e.return_prices else e.usage_prices
  let value := timed_value moment data_list
  if value ≠ none ∨ value = some 0 then value else none

/-- Electricity.extreme_usage_prices: (round(min,5), round(max,5)); min
and max raise on an empty mapping, modelled as none. -/
def extreme_usage_prices (e : Electricity) : Option (ℚ × ℚ) :=
  match pyMin (e.usage_prices.map Prod.snd), pyMax (e.usage_prices.map Prod.snd) with
  | some a, some b => some (round5 a, round5 b)
  | _, _ => none

/-- Electricity.extreme_return_prices. -/
def extreme_return_prices (e : Electricity) : Option (ℚ × ℚ) :=
  match pyMin (e.return_prices.map Prod.snd), pyMax (e.return_prices.map Prod.snd) with
  | some a, some b => some (round5 a, round5 b)
  | _, _ => none

/-- Electricity.average_usage_price: round(sum/len, 5); division by a
zero length raises, modelled as none. -/
def average_usage_price (e : Electricity) : Option ℚ :=
  if e.usage_prices.length = 0 then none
  else some (round5 ((e.usage_prices.map Prod.snd).sum / (e.usage_prices.length : ℚ)))

/-- Electricity.average_return_price. -/
def average_return_price (e : Electricity) : Option ℚ :=
  if e.return_prices.length = 0 then none
  else some (round5 ((e.return_prices.map Prod.snd).sum / (e.return_prices.length : ℚ)))

/-- Electricity.highest_usage_price_time. -/
def highest_usage_price_time (e : Electricity) : Option Int :=
  get_pricetime_max e.usage_prices

/-- Electricity.lowest_usage_price_time. -/
def lowest_usage_price_time (e : Electricity) : Option Int :=
  get_pricetime_min e.usage_prices

/-- Electricity.current_usage_price at a given value of utcnow (the
clock is made an explicit argument). -/
def current_usage_price (e : Electricity) (now : Int) : Option ℚ :=
  e.price_at_time now "usage"

/-- Electricity.pct_of_max_usage at a given value of utcnow:
round((current or 0) / extreme[1] * 100, 2); an empty mapping or a zero
maximum raises in Python, modelled as none. -/
def pct_of_max_usage (e : Electricity) (now : Int) : Option ℚ :=
  match e.extreme_usage_prices with
  | none => none
  | some ex =>
      if ex.2 = 0 then none
      else some (round2 ((e.current_usage_price now).getD 0 / ex.2 * 100))

/-- Electricity.generate_timestamp_list: one timestamp/price pair per
point, prices rounded to 5 decimals, in iteration order. -/
def generate_timestamp_list (prices : Prices) : List (Int × ℚ) :=
  prices.map (fun p => (p.1, round5 p.2))

/-- Electricity.timestamp_usage_prices. -/
def timestamp_usage_prices (e : Electricity) : List (Int × ℚ) :=
  generate_timestamp_list e.usage_prices

/-- Electricity.timestamp_return_prices. -/
def timestamp_return_prices (e : Electricity) : List (Int × ℚ) :=
  generate_timestamp_list e.return_prices

end Electricity

namespace Gas

/-- Gas.from_dict. -/
def from_dict (data : List GasRecord) : Gas :=
  { prices := data.foldl (fun d item => dictInsert d item.timestamp item.tariffUsage) [] }

/-- Gas.price_at_time. -/
def price_at_time (g : Gas) (moment : Int) : Option ℚ :=
  let value := timed_value moment g.prices
  if value ≠ none ∨ value = some 0 then value else none

/-- Gas.extreme_prices. -/
def extreme_prices (g : Gas) : Option (ℚ × ℚ) :=
  match pyMin (g.prices.map Prod.snd), pyMax (g.prices.map Prod.snd) with
  | some a, some b => some (round5 a, round5 b)
  | _, _ => none

/-- Gas.average_price. -/
def average_price (g : Gas) : Option ℚ :=
  if g.prices.length = 0 then none
  else some (round5 ((g.prices.map Prod.snd).sum / (g.prices.length : ℚ)))

end Gas

/-- easyenergy.EasyEnergy.energy_prices, post-fetch logic: the only
validation is the emptiness guard, raising EasyEnergyNoDataError before
any model construction. -/
def energyPricesLogic (data : List EnergyRecord) : Except String Electricity :=
  if data.length = 0 then .error "No energy prices found for this period."
  else .ok (Electricity.from_dict data)

/-- easyenergy.EasyEnergy.gas_prices, post-fetch logic. -/
def gasPricesLogic (data : List GasRecord) : Except String Gas :=
  if data.length = 0 then .error "No gas prices found for this period."
  else .ok (Gas.from_dict data)

/-- datetime(day, minuteOfDay, tzinfo=local).astimezone(UTC) as minutes
since epoch, for a local zone at a fixed offset (minutes east of UTC). -/
def localToUTC (day : Int) (minuteOfDay : Int) (offset : Int) : Int :=
  day * 1440 + minuteOfDay - offset

/-- Gas window normalizer of the current client
(src/easyenergy/easyenergy.py, gas_prices): branch on the local
wall-clock hour of the call. -/
def gasWindow (nowHour startDay endDay offset : Int) : Int × Int :=
  if nowHour ≥ 6 ∧ nowHour ≤ 23 then
    (localToUTC startDay 360 offset, localToUTC endDay 360 offset + 1440)
  else
    (localToUTC startDay 360 offset - 1440, localToUTC endDay 360 offset)

/-- Electricity window normalizer of the current client
(src/easyenergy/easyenergy.py, energy_prices): start_date at 00:00
local converted to UTC, end_date at 00:00 local converted to UTC plus
one day. -/
def energyWindow (startDay endDay offset : Int) : Int × Int :=
  (localToUTC startDay 0 offset, localToUTC endDay 0 offset + 1440)

/-- Electricity window normalizer of the legacy top-level module
(easyenergy/easyenergy.py): naive datetimes emitted as UTC, start at
00:00 minus one hour, end at 23:00 of the end date. -/
def energyWindowLegacy (startDay endDay : Int) : Int × Int :=
  (startDay * 1440 - 60, endDay * 1440 + 23 * 60)

/-- Gas window normalizer of the legacy top-level module
(easyenergy/easyenergy.py): branch on the UTC hour, 06:00 boundaries
taken as naive 05:00 UTC datetimes. -/
def gasWindowLegacy (utcHour startDay endDay : Int) : Int × Int :=
  if utcHour ≥ 5 ∧ utcHour ≤ 22 then
    (startDay * 1440 + 300, endDay * 1440 + 300 + 1440)
  else
    (startDay * 1440 + 300 - 1440, endDay * 1440 + 300)

/-- The electricity window as claimed by the spec: start_date at 00:00
local minus one hour converted to UTC, end_date at 00:00 local plus one
day converted to UTC. -/
def specEnergyWindow (startDay endDay offset : Int) : Int × Int :=
  (localToUTC startDay 0 offset - 60, localToUTC endDay 0 offset + 1440)

/-- The gas day-branch window as stated by the spec: start_date at
06:00 local converted to UTC, end_date at 06:00 local converted to UTC
plus one day. -/
def specGasWindowDay (startDay endDay offset : Int) : Int × Int :=
  (localToUTC startDay 360 offset, localToUTC endDay 360 offset + 1440)

/-- The gas night-branch window as stated by the spec: start_date at
06:00 local converted to UTC minus one day, end_date at 06:00 local
converted to UTC. -/
def specGasWindowNight (startDay endDay offset : Int) : Int × Int :=
  (localToUTC startDay 360 offset - 1440, localToUTC endDay 360 offset)

end EasyEnergy

namespace EasyEnergy

theorem rhe_ge_floor (q : ℚ) : ⌊q⌋ ≤ rhe q := by
  unfold rhe; split_ifs <;> omega

theorem rhe_le_floor_add_one (q : ℚ) : rhe q ≤ ⌊q⌋ + 1 := by
  unfold rhe; split_ifs <;> omega

theorem rhe_mono {q q' : ℚ} (h : q ≤ q') : rhe q ≤ rhe q' := by
  by_cases hf : ⌊q⌋ = ⌊q'⌋
  · unfold rhe
    rw [hf]
    split_ifs <;> first | omega | (exfalso; linarith)
  · have hlt : ⌊q⌋ < ⌊q'⌋ := lt_of_le_of_ne (Int.floor_le_floor h) hf
    calc rhe q ≤ ⌊q⌋ + 1 := rhe_le_floor_add_one q
    _ ≤ ⌊q'⌋ := by omega
    _ ≤ rhe q' := rhe_ge_floor q'

theorem pyRound_mono (n : ℕ) {q q' : ℚ} (h : q ≤ q') : pyRound q n ≤ pyRound q' n := by
  unfold pyRound
  have h1 : q * 10 ^ n ≤ q' * 10 ^ n :=
    mul_le_mul_of_nonneg_right h (by positivity)
  have h2 : ((rhe (q * 10 ^ n) : ℚ)) ≤ (rhe (q' * 10 ^ n) : ℚ) := by
    exact_mod_cast rhe_mono h1
  exact div_le_div_of_nonneg_right h2 (by positivity)

theorem round5_mono {q q' : ℚ} (h : q ≤ q') : round5 q ≤ round5 q' :=
  pyRound_mono 5 h

theorem round2_mono {q q' : ℚ} (h : q ≤ q') : round2 q ≤ round2 q' :=
  pyRound_mono 2 h

theorem rhe_intCast (z : ℤ) : rhe (z : ℚ) = z := by
  unfold rhe
  rw [Int.floor_intCast]
  split_ifs with h1 h2 <;> [rfl; skip; rfl; skip] <;> exfalso <;>
    simp only [sub_self] at h1 h2 <;> norm_num at h1 h2

theorem round2_zero : round2 0 = 0 := by
  unfold round2 pyRound
  norm_num
  have : rhe ((0 : ℤ) : ℚ) = 0 := rhe_intCast 0
  simp only [Int.cast_zero] at this
  rw [this]

theorem round2_hundred : round2 100 = 100 := by
  unfold round2 pyRound
  have h : (100 : ℚ) * 10 ^ 2 = ((10000 : ℤ) : ℚ) := by norm_num
  rw [h, rhe_intCast]
  norm_num

end EasyEnergy

namespace EasyEnergy

theorem le_foldl_max (l : List ℚ) (x : ℚ) : x ≤ l.foldl max x := by
  induction l generalizing x with
  | nil => exact le_refl x
  | cons a l ih =>
    rw [List.foldl_cons]
    exact le_trans (le_max_left x a) (ih (max x a))

theorem mem_le_foldl_max (l : List ℚ) (x : ℚ) {y : ℚ} (hy : y ∈ l) :
    y ≤ l.foldl max x := by
  induction l generalizing x with
  | nil => cases hy
  | cons a l ih =>
    rw [List.foldl_cons]
    rcases List.mem_cons.mp hy with rfl | h
    · exact le_trans (le_max_right x y) (le_foldl_max l (max x y))
    · exact ih (max x a) h

theorem foldl_max_mem (l : List ℚ) (x : ℚ) :
    l.foldl max x = x ∨ l.foldl max x ∈ l := by
  induction l generalizing x with
  | nil => left; rfl
  | cons a l ih =>
    rw [List.foldl_cons]
    rcases ih (max x a) with h | h
    · rcases max_choice x a with hc | hc
      · left; rw [h, hc]
      · right; rw [h, hc]; exact List.mem_cons_self a l
    · right; exact List.mem_cons_of_mem a h

theorem foldl_min_le (l : List ℚ) (x : ℚ) : l.foldl min x ≤ x := by
  induction l generalizing x with
  | nil => exact le_refl x
  | cons a l ih =>
    rw [List.foldl_cons]
    exact le_trans (ih (min x a)) (min_le_left x a)

theorem foldl_min_le_mem (l : List ℚ) (x : ℚ) {y : ℚ} (hy : y ∈ l) :
    l.foldl min x ≤ y := by
  induction l generalizing x with
  | nil => cases hy
  | cons a l ih =>
    rw [List.foldl_cons]
    rcases List.mem_cons.mp hy with rfl | h
    · exact le_trans (foldl_min_le l (min x y)) (min_le_right x y)
    · exact ih (min x a) h

theorem foldl_min_mem (l : List ℚ) (x : ℚ) :
    l.foldl min x = x ∨ l.foldl min x ∈ l := by
  induction l generalizing x with
  | nil => left; rfl
  | cons a l ih =>
    rw [List.foldl_cons]
    rcases ih (min x a) with h | h
    · rcases min_choice x a with hc | hc
      · left; rw [h, hc]
      · right; rw [h, hc]; exact List.mem_cons_self a l
    · right; exact List.mem_cons_of_mem a h

theorem avg_between_core (x : ℚ) (xs : List ℚ) :
    round5 (xs.foldl min x) ≤ round5 ((x :: xs).sum / ((x :: xs).length : ℚ)) ∧
    round5 ((x :: xs).sum / ((x :: xs).length : ℚ)) ≤ round5 (xs.foldl max x) := by
  have hlen : (0 : ℚ) < ((x :: xs).length : ℚ) := by
    have h0 : 0 < (x :: xs).length := Nat.succ_pos _
    exact_mod_cast h0
  constructor
  · apply round5_mono
    rw [le_div_iff₀ hlen]
    have hb : ∀ y ∈ x :: xs, xs.foldl min x ≤ y := by
      intro y hy
      rcases List.mem_cons.mp hy with rfl | hy
      · exact foldl_min_le xs y
      · exact foldl_min_le_mem xs x hy
    have hs := List.card_nsmul_le_sum (x :: xs) (xs.foldl min x) hb
    rwa [nsmul_eq_mul, mul_comm] at hs
  · apply round5_mono
    rw [div_le_iff₀ hlen]
    have hb : ∀ y ∈ x :: xs, y ≤ xs.foldl max x := by
      intro y hy
      rcases List.mem_cons.mp hy with rfl | hy
      · exact le_foldl_max xs y
      · exact mem_le_foldl_max xs x hy
    have hs := List.sum_le_card_nsmul (x :: xs) (xs.foldl max x) hb
    rwa [nsmul_eq_mul, mul_comm] at hs

end EasyEnergy

namespace EasyEnergy

theorem foldl_min_le_all (x : ℚ) (xs : List ℚ) :
    ∀ y ∈ x :: xs, xs.foldl min x ≤ y := by
  intro y hy
  rcases List.mem_cons.mp hy with rfl | hy
  · exact foldl_min_le xs y
  · exact foldl_min_le_mem xs x hy

theorem foldl_max_ge_all (x : ℚ) (xs : List ℚ) :
    ∀ y ∈ x :: xs, y ≤ xs.foldl max x := by
  intro y hy
  rcases List.mem_cons.mp hy with rfl | hy
  · exact le_foldl_max xs y
  · exact mem_le_foldl_max xs x hy

theorem foldl_min_mem_cons (x : ℚ) (xs : List ℚ) : xs.foldl min x ∈ x :: xs := by
  rcases foldl_min_mem xs x with h | h
  · rw [h]; exact List.mem_cons_self x xs
  · exact List.mem_cons_of_mem x h

theorem foldl_max_mem_cons (x : ℚ) (xs : List ℚ) : xs.foldl max x ∈ x :: xs := by
  rcases foldl_max_mem xs x with h | h
  · rw [h]; exact List.mem_cons_self x xs
  · exact List.mem_cons_of_mem x h

theorem vals_avg_between (vals : List ℚ) (h : vals ≠ []) :
    ∃ a b, pyMin vals = some a ∧ pyMax vals = some b ∧
      round5 a ≤ round5 (vals.sum / (vals.length : ℚ)) ∧
      round5 (vals.sum / (vals.length : ℚ)) ≤ round5 b := by
  obtain ⟨x, xs, rfl⟩ := List.exists_cons_of_ne_nil h
  exact ⟨_, _, rfl, rfl, (avg_between_core x xs).1, (avg_between_core x xs).2⟩

theorem vals_extreme (vals : List ℚ) (h : vals ≠ []) :
    ∃ a b, pyMin vals = some a ∧ pyMax vals = some b ∧ round5 a ≤ round5 b ∧
      (round5 a = round5 b ↔ ∀ y ∈ vals, ∀ z ∈ vals, round5 y = round5 z) := by
  obtain ⟨x, xs, rfl⟩ := List.exists_cons_of_ne_nil h
  refine ⟨_, _, rfl, rfl, ?_, ?_, ?_⟩
  · exact round5_mono (le_trans (foldl_min_le xs x) (le_foldl_max xs x))
  · intro heq y hy z hz
    have h1 : round5 y ≤ round5 (xs.foldl max x) :=
      round5_mono (foldl_max_ge_all x xs y hy)
    have h2 : round5 (xs.foldl min x) ≤ round5 z :=
      round5_mono (foldl_min_le_all x xs z hz)
    have h3 : round5 z ≤ round5 (xs.foldl max x) :=
      round5_mono (foldl_max_ge_all x xs z hz)
    have h4 : round5 (xs.foldl min x) ≤ round5 y :=
      round5_mono (foldl_min_le_all x xs y hy)
    rw [heq] at h4 h2
    exact le_antisymm (le_trans h1 h2) (le_trans h3 h4)
  · intro hall
    exact hall _ (foldl_min_mem_cons x xs) _ (foldl_max_mem_cons x xs)

/-- C6: for every non-empty series (electricity usage and gas), the
average price, the arithmetic mean of the stored prices rounded to 5
decimals, lies between the minimum and the maximum components of the
extreme pair, inclusive. -/
theorem average_between_extremes (e : Electricity) (g : Gas)
    (he : e.usage_prices ≠ []) (hg : g.prices ≠ []) :
    (∃ mn mx avg, e.extreme_usage_prices = some (mn, mx) ∧
      e.average_usage_price = some avg ∧ mn ≤ avg ∧ avg ≤ mx) ∧
    (∃ mn mx avg, g.extreme_prices = some (mn, mx) ∧
      g.average_price = some avg ∧ mn ≤ avg ∧ avg ≤ mx) := by
  constructor
  · obtain ⟨a, b, hmin, hmax, h1, h2⟩ :=
      vals_avg_between (e.usage_prices.map Prod.snd)
        (by simpa using he)
    have hlm : ((e.usage_prices.map Prod.snd).length : ℚ) =
        (e.usage_prices.length : ℚ) := by rw [List.length_map]
    rw [hlm] at h1 h2
    refine ⟨round5 a, round5 b, _, ?_, ?_, h1, h2⟩
    · unfold Electricity.extreme_usage_prices
      rw [hmin, hmax]
    · unfold Electricity.average_usage_price
      rw [if_neg (fun h0 => he (List.length_eq_zero.mp h0))]
  · obtain ⟨a, b, hmin, hmax, h1, h2⟩ :=
      vals_avg_between (g.prices.map Prod.snd)
        (by simpa using hg)
    have hlm : ((g.prices.map Prod.snd).length : ℚ) =
        (g.prices.length : ℚ) := by rw [List.length_map]
    rw [hlm] at h1 h2
    refine ⟨round5 a, round5 b, _, ?_, ?_, h1, h2⟩
    · unfold Gas.extreme_prices
      rw [hmin, hmax]
    · unfold Gas.average_price
      rw [if_neg (fun h0 => hg (List.length_eq_zero.mp h0))]

end EasyEnergy

namespace EasyEnergy

/-- C6 witness at a concrete electricity and gas series. -/
theorem average_between_extremes_witness :
    (∃ mn mx avg,
      (Electricity.mk [((0 : Int), (1 : ℚ)), (60, 3)] [((0 : Int), (2 : ℚ))]).extreme_usage_prices = some (mn, mx) ∧
      (Electricity.mk [((0 : Int), (1 : ℚ)), (60, 3)] [((0 : Int), (2 : ℚ))]).average_usage_price = some avg ∧
      mn ≤ avg ∧ avg ≤ mx) ∧
    (∃ mn mx avg,
      (Gas.mk [((0 : Int), (2 : ℚ))]).extreme_prices = some (mn, mx) ∧
      (Gas.mk [((0 : Int), (2 : ℚ))]).average_price = some avg ∧
      mn ≤ avg ∧ avg ≤ mx) :=
  average_between_extremes _ _ (List.cons_ne_nil _ _) (List.cons_ne_nil _ _)

/-- C7: for every non-empty series, the extreme pair is the rounded
minimum and rounded maximum of the stored prices, the pair is ordered,
and the two components coincide exactly when all stored prices agree
after rounding to 5 decimals. -/
theorem extreme_prices_ordered (e : Electricity) (g : Gas)
    (he : e.usage_prices ≠ []) (hg : g.prices ≠ []) :
    (∃ mn mx, e.extreme_usage_prices = some (mn, mx) ∧ mn ≤ mx ∧
      (mn = mx ↔ ∀ p ∈ e.usage_prices, ∀ q ∈ e.usage_prices,
        round5 p.2 = round5 q.2)) ∧
    (∃ mn mx, g.extreme_prices = some (mn, mx) ∧ mn ≤ mx ∧
      (mn = mx ↔ ∀ p ∈ g.prices, ∀ q ∈ g.prices, round5 p.2 = round5 q.2)) := by
  constructor
  · obtain ⟨a, b, hmin, hmax, hle, hiff⟩ :=
      vals_extreme (e.usage_prices.map Prod.snd) (by simpa using he)
    refine ⟨round5 a, round5 b, ?_, hle, ?_⟩
    · unfold Electricity.extreme_usage_prices
      rw [hmin, hmax]
    · rw [hiff]
      constructor
      · intro hall p hp q hq
        exact hall _ (List.mem_map_of_mem _ hp) _ (List.mem_map_of_mem _ hq)
      · intro hall y hy z hz
        obtain ⟨p, hp, rfl⟩ := List.mem_map.mp hy
        obtain ⟨q, hq, rfl⟩ := List.mem_map.mp hz
        exact hall p hp q hq
  · obtain ⟨a, b, hmin, hmax, hle, hiff⟩ :=
      vals_extreme (g.prices.map Prod.snd) (by simpa using hg)
    refine ⟨round5 a, round5 b, ?_, hle, ?_⟩
    · unfold Gas.extreme_prices
      rw [hmin, hmax]
    · rw [hiff]
      constructor
      · intro hall p hp q hq
        exact hall _ (List.mem_map_of_mem _ hp) _ (List.mem_map_of_mem _ hq)
      · intro hall y hy z hz
        obtain ⟨p, hp, rfl⟩ := List.mem_map.mp hy
        obtain ⟨q, hq, rfl⟩ := List.mem_map.mp hz
        exact hall p hp q hq

/-- C7 witness at a concrete electricity and gas series. -/
theorem extreme_prices_ordered_witness :
    (∃ mn mx,
      (Electricity.mk [((0 : Int), (5 : ℚ)), (60, 4)] [((0 : Int), (7 : ℚ))]).extreme_usage_prices = some (mn, mx) ∧
      mn ≤ mx ∧
      (mn = mx ↔ ∀ p ∈ (Electricity.mk [((0 : Int), (5 : ℚ)), (60, 4)] [((0 : Int), (7 : ℚ))]).usage_prices,
        ∀ q ∈ (Electricity.mk [((0 : Int), (5 : ℚ)), (60, 4)] [((0 : Int), (7 : ℚ))]).usage_prices,
          round5 p.2 = round5 q.2)) ∧
    (∃ mn mx,
      (Gas.mk [((0 : Int), (7 : ℚ))]).extreme_prices = some (mn, mx) ∧ mn ≤ mx ∧
      (mn = mx ↔ ∀ p ∈ (Gas.mk [((0 : Int), (7 : ℚ))]).prices,
        ∀ q ∈ (Gas.mk [((0 : Int), (7 : ℚ))]).prices, round5 p.2 = round5 q.2)) :=
  extreme_prices_ordered _ _ (List.cons_ne_nil _ _) (List.cons_ne_nil _ _)

end EasyEnergy

namespace EasyEnergy

/-- The price of the last point in iteration order whose bucket
[timestamp, timestamp + 1h) contains the moment, rounded to 5 decimals:
later entries take precedence; none when no bucket contains the moment. -/
def lastMatchPrice (t : Int) : Prices → Option ℚ
  | [] => none
  | p :: l =>
      match lastMatchPrice t l with
      | some v => some v
      | none => if p.1 ≤ t ∧ t < p.1 + 60 then some (round5 p.2) else none

theorem timed_value_foldl_aux (t : Int) (l : Prices) (a : Option ℚ) :
    l.foldl
      (fun value p =>
        if p.1 ≤ t ∧ t < p.1 + 60 then some (round5 p.2) else value) a =
    match lastMatchPrice t l with
    | some v => some v
    | none => a := by
  induction l generalizing a with
  | nil => simp [lastMatchPrice]
  | cons p l ih =>
    rw [List.foldl_cons, ih]
    cases h : lastMatchPrice t l with
    | some v => simp [lastMatchPrice, h]
    | none =>
      simp only [lastMatchPrice, h]
      by_cases hp : p.1 ≤ t ∧ t < p.1 + 60
      · simp [hp]
      · simp [hp]

theorem timed_value_eq_lastMatch (t : Int) (l : Prices) :
    timed_value t l = lastMatchPrice t l := by
  unfold timed_value
  rw [timed_value_foldl_aux]
  cases h : lastMatchPrice t l <;> rfl

theorem price_at_time_eq_timed_value (e : Electricity) (t : Int) (dataType : String) :
    e.price_at_time t dataType =
      timed_value t (if dataType == "return" then e.return_prices else e.usage_prices) := by
  unfold Electricity.price_at_time
  cases h : timed_value t (if dataType == "return" then e.return_prices else e.usage_prices) with
  | none => simp only [h]; simp
  | some v => simp only [h]; simp

theorem gas_price_at_time_eq_timed_value (g : Gas) (t : Int) :
    g.price_at_time t = timed_value t g.prices := by
  unfold Gas.price_at_time
  cases h : timed_value t g.prices with
  | none => simp only [h]; simp
  | some v => simp only [h]; simp

theorem lastMatchPrice_congr (t t' : Int) (l : Prices)
    (halign : ∀ p ∈ l, p.1 % 60 = 0) (hdiv : t / 60 = t' / 60) :
    lastMatchPrice t l = lastMatchPrice t' l := by
  induction l with
  | nil => rfl
  | cons p l ih =>
    have hp : p.1 % 60 = 0 := halign p (List.mem_cons_self p l)
    have htail : ∀ q ∈ l, q.1 % 60 = 0 :=
      fun q hq => halign q (List.mem_cons_of_mem p hq)
    have hcov : (p.1 ≤ t ∧ t < p.1 + 60) ↔ (p.1 ≤ t' ∧ t' < p.1 + 60) := by omega
    simp only [lastMatchPrice, ih htail]
    cases lastMatchPrice t' l with
    | some v => rfl
    | none =>
      by_cases hc : p.1 ≤ t ∧ t < p.1 + 60
      · rw [if_pos hc, if_pos (hcov.mp hc)]
      · rw [if_neg hc, if_neg (fun hc' => hc (hcov.mpr hc'))]

theorem lastMatchPrice_none (t : Int) (l : Prices)
    (h : ∀ p ∈ l, ¬(p.1 ≤ t ∧ t < p.1 + 60)) :
    lastMatchPrice t l = none := by
  induction l with
  | nil => rfl
  | cons p l ih =>
    simp only [lastMatchPrice,
      ih (fun q hq => h q (List.mem_cons_of_mem p hq))]
    rw [if_neg (h p (List.mem_cons_self p l))]

/-- C2: price_at_time is the bucket lookup: it returns the 5-decimal
rounding of the price of the point whose bucket contains the instant,
the last matching point in iteration order winning; with hour-aligned
keys it is constant on each hour bucket; it returns none when no bucket
contains the instant; and the gas lookup has the same semantics. -/
theorem price_at_time_bucket_semantics (e : Electricity) (g : Gas)
    (dataType : String) (t t' : Int) :
    (e.price_at_time t dataType =
      lastMatchPrice t (if dataType == "return" then e.return_prices else e.usage_prices)) ∧
    ((∀ p ∈ (if dataType == "return" then e.return_prices else e.usage_prices),
        p.1 % 60 = 0) → t / 60 = t' / 60 →
      e.price_at_time t dataType = e.price_at_time t' dataType) ∧
    ((∀ p ∈ (if dataType == "return" then e.return_prices else e.usage_prices),
        ¬(p.1 ≤ t ∧ t < p.1 + 60)) → e.price_at_time t dataType = none) ∧
    (g.price_at_time t = lastMatchPrice t g.prices) := by
  refine ⟨?_, ?_, ?_, ?_⟩
  · rw [price_at_time_eq_timed_value, timed_value_eq_lastMatch]
  · intro halign hdiv
    rw [price_at_time_eq_timed_value, price_at_time_eq_timed_value,
      timed_value_eq_lastMatch, timed_value_eq_lastMatch]
    exact lastMatchPrice_congr t t' _ halign hdiv
  · intro hnone
    rw [price_at_time_eq_timed_value, timed_value_eq_lastMatch]
    exact lastMatchPrice_none t _ hnone
  · rw [gas_price_at_time_eq_timed_value, timed_value_eq_lastMatch]

/-- C2 witness: instants 10 and 20 share the bucket of hour 0 and get
the same price; instant 500 is outside every bucket and gets none. -/
theorem price_at_time_bucket_semantics_witness :
    (Electricity.mk [((0 : Int), (1 : ℚ))] [((0 : Int), (2 : ℚ))]).price_at_time 10 "usage" =
      (Electricity.mk [((0 : Int), (1 : ℚ))] [((0 : Int), (2 : ℚ))]).price_at_time 20 "usage" ∧
    (Electricity.mk [((0 : Int), (1 : ℚ))] [((0 : Int), (2 : ℚ))]).price_at_time 500 "usage" = none :=
  ⟨(price_at_time_bucket_semantics
      (Electricity.mk [((0 : Int), (1 : ℚ))] [((0 : Int), (2 : ℚ))])
      (Gas.mk []) "usage" 10 20).2.1 (by decide) (by decide),
   (price_at_time_bucket_semantics
      (Electricity.mk [((0 : Int), (1 : ℚ))] [((0 : Int), (2 : ℚ))])
      (Gas.mk []) "usage" 500 500).2.2.1 (by decide)⟩

end EasyEnergy

namespace EasyEnergy

theorem dictInsert_not_mem (d : Prices) (k : Int) (v : ℚ)
    (h : k ∉ d.map Prod.fst) : dictInsert d k v = d ++ [(k, v)] := by
  unfold dictInsert
  rw [if_neg]
  intro hany
  rcases List.any_eq_true.mp hany with ⟨p, hp, hpk⟩
  exact h (List.mem_map.mpr ⟨p, hp, eq_of_beq hpk⟩)

theorem foldl_dictInsert_eq_append (ts : List (Int × ℚ)) (acc : Prices)
    (h : (acc.map Prod.fst ++ ts.map Prod.fst).Nodup) :
    ts.foldl (fun d p => dictInsert d p.1 p.2) acc = acc ++ ts := by
  induction ts generalizing acc with
  | nil => simp
  | cons p ts ih =>
    rw [List.foldl_cons]
    have hsplit := List.nodup_append.mp (by simpa using h)
    have hk : p.1 ∉ acc.map Prod.fst := by
      intro hmem
      exact hsplit.2.2 hmem (List.mem_cons_self _ _)
    rw [dictInsert_not_mem _ _ _ hk]
    have h2 : ((acc ++ [(p.1, p.2)]).map Prod.fst ++ ts.map Prod.fst).Nodup := by
      have : (acc ++ [(p.1, p.2)]).map Prod.fst ++ ts.map Prod.fst =
          acc.map Prod.fst ++ p.1 :: ts.map Prod.fst := by simp
      rw [this]
      simpa using h
    rw [ih (acc ++ [(p.1, p.2)]) h2, List.append_assoc]
    rfl

theorem foldl_from_records {α : Type} (data : List α) (key : α → Int) (f : α → ℚ)
    (h : (data.map key).Nodup) :
    data.foldl (fun d item => dictInsert d (key item) (f item)) [] =
      data.map (fun item => (key item, f item)) := by
  have h2 : ((([] : Prices)).map Prod.fst ++
      (data.map (fun item => (key item, f item))).map Prod.fst).Nodup := by
    simpa [List.map_map, Function.comp] using h
  have h3 := foldl_dictInsert_eq_append (data.map (fun item => (key item, f item))) [] h2
  rw [List.foldl_map] at h3
  simpa using h3

/-- C8: from a record list with pairwise-distinct hour keys, from_dict
builds mappings listing exactly the N records in order, and the
timestamp lists expose exactly N entries, in iteration order, whose
prices are the 5-decimal roundings of the stored point values. -/
theorem from_dict_round_trip (data : List EnergyRecord) (gdata : List GasRecord)
    (h : (data.map EnergyRecord.timestamp).Nodup)
    (hg : (gdata.map GasRecord.timestamp).Nodup) :
    (Electricity.from_dict data).usage_prices =
      data.map (fun r => (r.timestamp, r.tariffUsage)) ∧
    (Electricity.from_dict data).return_prices =
      data.map (fun r => (r.timestamp, r.tariffReturn)) ∧
    (Electricity.from_dict data).usage_prices.length = data.length ∧
    (Electricity.from_dict data).return_prices.length = data.length ∧
    (Electricity.from_dict data).timestamp_usage_prices =
      (Electricity.from_dict data).usage_prices.map (fun p => (p.1, round5 p.2)) ∧
    (Electricity.from_dict data).timestamp_return_prices =
      (Electricity.from_dict data).return_prices.map (fun p => (p.1, round5 p.2)) ∧
    (Electricity.from_dict data).timestamp_usage_prices =
      data.map (fun r => (r.timestamp, round5 r.tariffUsage)) ∧
    (Electricity.from_dict data).timestamp_usage_prices.length = data.length ∧
    (Gas.from_dict gdata).prices = gdata.map (fun r => (r.timestamp, r.tariffUsage)) ∧
    (Gas.from_dict gdata).prices.length = gdata.length := by
  have hu : (Electricity.from_dict data).usage_prices =
      data.map (fun r => (r.timestamp, r.tariffUsage)) :=
    foldl_from_records data EnergyRecord.timestamp EnergyRecord.tariffUsage h
  have hr : (Electricity.from_dict data).return_prices =
      data.map (fun r => (r.timestamp, r.tariffReturn)) :=
    foldl_from_records data EnergyRecord.timestamp EnergyRecord.tariffReturn h
  have hgp : (Gas.from_dict gdata).prices =
      gdata.map (fun r => (r.timestamp, r.tariffUsage)) :=
    foldl_from_records gdata GasRecord.timestamp GasRecord.tariffUsage hg
  refine ⟨hu, hr, ?_, ?_, rfl, rfl, ?_, ?_, hgp, ?_⟩
  · rw [hu, List.length_map]
  · rw [hr, List.length_map]
  · unfold Electricity.timestamp_usage_prices Electricity.generate_timestamp_list
    rw [hu, List.map_map]
    rfl
  · unfold Electricity.timestamp_usage_prices Electricity.generate_timestamp_list
    rw [hu, List.length_map, List.length_map]
  · rw [hgp, List.length_map]

/-- C8 witness at a concrete two-record electricity list and a
one-record gas list with distinct keys. -/
theorem from_dict_round_trip_witness :
    (Electricity.from_dict [⟨0, 1, 2⟩, ⟨60, 3, 4⟩]).usage_prices =
      [((0 : Int), (1 : ℚ)), (60, 3)] ∧
    (Electricity.from_dict [⟨0, 1, 2⟩, ⟨60, 3, 4⟩]).usage_prices.length = 2 ∧
    (Gas.from_dict [⟨0, 5⟩]).prices.length = 1 :=
  ⟨(from_dict_round_trip [⟨0, 1, 2⟩, ⟨60, 3, 4⟩] [⟨0, 5⟩]
      (by decide) (by decide)).1,
   (from_dict_round_trip [⟨0, 1, 2⟩, ⟨60, 3, 4⟩] [⟨0, 5⟩]
      (by decide) (by decide)).2.2.1,
   (from_dict_round_trip [⟨0, 1, 2⟩, ⟨60, 3, 4⟩] [⟨0, 5⟩]
      (by decide) (by decide)).2.2.2.2.2.2.2.2.2⟩

theorem dictInsert_keys (d : Prices) (k : Int) (v : ℚ) :
    (dictInsert d k v).map Prod.fst =
      if k ∈ d.map Prod.fst then d.map Prod.fst else d.map Prod.fst ++ [k] := by
  unfold dictInsert
  by_cases h : d.any (fun p => p.1 == k) = true
  · rw [if_pos h, if_pos]
    · rw [List.map_map]
      apply List.map_congr_left
      intro p _
      by_cases hp : (p.1 == k) = true
      · simp only [Function.comp_apply, hp, if_pos]
        exact (eq_of_beq hp).symm
      · simp only [Function.comp_apply, hp]
        rfl
    · rcases List.any_eq_true.mp h with ⟨p, hp, hpk⟩
      exact List.mem_map.mpr ⟨p, hp, eq_of_beq hpk⟩
  · rw [if_neg h, if_neg]
    · simp
    · intro hmem
      rcases List.mem_map.mp hmem with ⟨p, hp, hpk⟩
      exact h (List.any_eq_true.mpr ⟨p, hp, beq_iff_eq.mpr hpk⟩)

theorem foldl_insert_keys_congr {α : Type} (data : List α) (key : α → Int)
    (f g : α → ℚ) (acc1 acc2 : Prices)
    (h : acc1.map Prod.fst = acc2.map Prod.fst) :
    (data.foldl (fun d item => dictInsert d (key item) (f item)) acc1).map Prod.fst =
    (data.foldl (fun d item => dictInsert d (key item) (g item)) acc2).map Prod.fst := by
  induction data generalizing acc1 acc2 with
  | nil => exact h
  | cons a l ih =>
    rw [List.foldl_cons, List.foldl_cons]
    apply ih
    rw [dictInsert_keys, dictInsert_keys, h]

/-- C10: for every record list, the usage and return mappings built by
Electricity.from_dict carry exactly the same keys, in the same order,
because both are populated from the same record list. -/
theorem from_dict_same_key_sets (data : List EnergyRecord) :
    (Electricity.from_dict data).usage_prices.map Prod.fst =
      (Electricity.from_dict data).return_prices.map Prod.fst :=
  foldl_insert_keys_congr data EnergyRecord.timestamp
    EnergyRecord.tariffUsage EnergyRecord.tariffReturn [] [] rfl

end EasyEnergy

namespace EasyEnergy

theorem foldl_argmax_first (x : Int × ℚ) (xs : Prices) :
    (x :: xs).find? (fun p => p.2 == (xs.map Prod.snd).foldl max x.2) =
      some (xs.foldl (fun best p => if best.2 < p.2 then p else best) x) := by
  induction xs generalizing x with
  | nil => exact List.find?_cons_of_pos _ (by simp)
  | cons p xs ih =>
    rw [List.foldl_cons]
    have hM : ((p :: xs).map Prod.snd).foldl max x.2 =
        (xs.map Prod.snd).foldl max (max x.2 p.2) := by
      rw [List.map_cons, List.foldl_cons]
    by_cases hc : x.2 < p.2
    · rw [if_pos hc, hM, max_eq_right hc.le]
      have hxM : ¬(x.2 == (xs.map Prod.snd).foldl max p.2) = true := by
        intro hbeq
        have hx2 : x.2 = (xs.map Prod.snd).foldl max p.2 := eq_of_beq hbeq
        have hle : p.2 ≤ (xs.map Prod.snd).foldl max p.2 := le_foldl_max _ _
        rw [← hx2] at hle
        exact absurd hc (not_lt.mpr hle)
      rw [@List.find?_cons_of_neg _
        (fun q => q.2 == (xs.map Prod.snd).foldl max p.2) x (p :: xs) hxM]
      exact ih p
    · rw [if_neg hc, hM, max_eq_left (not_lt.mp hc)]
      by_cases hx : (x.2 == (xs.map Prod.snd).foldl max x.2) = true
      · rw [@List.find?_cons_of_pos _
          (fun q => q.2 == (xs.map Prod.snd).foldl max x.2) x (p :: xs) hx]
        have hihx := ih x
        rw [@List.find?_cons_of_pos _
          (fun q => q.2 == (xs.map Prod.snd).foldl max x.2) x xs hx] at hihx
        exact hihx
      · have hxlt : x.2 < (xs.map Prod.snd).foldl max x.2 :=
          lt_of_le_of_ne (le_foldl_max _ _) (fun he => hx (beq_iff_eq.mpr he))
        have hpM : ¬(p.2 == (xs.map Prod.snd).foldl max x.2) = true := by
          intro hbeq
          have hp2 : p.2 = (xs.map Prod.snd).foldl max x.2 := eq_of_beq hbeq
          have : (xs.map Prod.snd).foldl max x.2 ≤ x.2 := hp2 ▸ not_lt.mp hc
          exact absurd hxlt (not_lt.mpr this)
        rw [@List.find?_cons_of_neg _
          (fun q => q.2 == (xs.map Prod.snd).foldl max x.2) x (p :: xs) hx,
          @List.find?_cons_of_neg _
          (fun q => q.2 == (xs.map Prod.snd).foldl max x.2) p xs hpM]
        have hihx := ih x
        rw [@List.find?_cons_of_neg _
          (fun q => q.2 == (xs.map Prod.snd).foldl max x.2) x xs hx] at hihx
        exact hihx

theorem foldl_argmin_first (x : Int × ℚ) (xs : Prices) :
    (x :: xs).find? (fun p => p.2 == (xs.map Prod.snd).foldl min x.2) =
      some (xs.foldl (fun best p => if p.2 < best.2 then p else best) x) := by
  induction xs generalizing x with
  | nil => exact List.find?_cons_of_pos _ (by simp)
  | cons p xs ih =>
    rw [List.foldl_cons]
    have hM : ((p :: xs).map Prod.snd).foldl min x.2 =
        (xs.map Prod.snd).foldl min (min x.2 p.2) := by
      rw [List.map_cons, List.foldl_cons]
    by_cases hc : p.2 < x.2
    · rw [if_pos hc, hM, min_eq_right hc.le]
      have hxM : ¬(x.2 == (xs.map Prod.snd).foldl min p.2) = true := by
        intro hbeq
        have hx2 : x.2 = (xs.map Prod.snd).foldl min p.2 := eq_of_beq hbeq
        have hle : (xs.map Prod.snd).foldl min p.2 ≤ p.2 := foldl_min_le _ _
        rw [← hx2] at hle
        exact absurd hc (not_lt.mpr hle)
      rw [@List.find?_cons_of_neg _
        (fun q => q.2 == (xs.map Prod.snd).foldl min p.2) x (p :: xs) hxM]
      exact ih p
    · rw [if_neg hc, hM, min_eq_left (not_lt.mp hc)]
      by_cases hx : (x.2 == (xs.map Prod.snd).foldl min x.2) = true
      · rw [@List.find?_cons_of_pos _
          (fun q => q.2 == (xs.map Prod.snd).foldl min x.2) x (p :: xs) hx]
        have hihx := ih x
        rw [@List.find?_cons_of_pos _
          (fun q => q.2 == (xs.map Prod.snd).foldl min x.2) x xs hx] at hihx
        exact hihx
      · have hxgt : (xs.map Prod.snd).foldl min x.2 < x.2 :=
          lt_of_le_of_ne (foldl_min_le _ _) (fun he => hx (beq_iff_eq.mpr he.symm))
        have hpM : ¬(p.2 == (xs.map Prod.snd).foldl min x.2) = true := by
          intro hbeq
          have hp2 : p.2 = (xs.map Prod.snd).foldl min x.2 := eq_of_beq hbeq
          have : x.2 ≤ p.2 := not_lt.mp hc
          rw [hp2] at this
          exact absurd hxgt (not_lt.mpr this)
        rw [@List.find?_cons_of_neg _
          (fun q => q.2 == (xs.map Prod.snd).foldl min x.2) x (p :: xs) hx,
          @List.find?_cons_of_neg _
          (fun q => q.2 == (xs.map Prod.snd).foldl min x.2) p xs hpM]
        have hihx := ih x
        rw [@List.find?_cons_of_neg _
          (fun q => q.2 == (xs.map Prod.snd).foldl min x.2) x xs hx] at hihx
        exact hihx

/-- C9: on a non-empty series, the highest/lowest price-time accessors
return the timestamp of a point whose price equals the maximal/minimal
stored value, and among ties they return the first such point in the
mapping's iteration order (the point that find? reaches first). -/
theorem pricetime_extreme_first (e : Electricity) (he : e.usage_prices ≠ []) :
    (∃ M p, pyMax (e.usage_prices.map Prod.snd) = some M ∧
      p ∈ e.usage_prices ∧ p.2 = M ∧
      e.highest_usage_price_time = some p.1 ∧
      e.usage_prices.find? (fun q => q.2 == M) = some p) ∧
    (∃ m p, pyMin (e.usage_prices.map Prod.snd) = some m ∧
      p ∈ e.usage_prices ∧ p.2 = m ∧
      e.lowest_usage_price_time = some p.1 ∧
      e.usage_prices.find? (fun q => q.2 == m) = some p) := by
  obtain ⟨x, xs, hxs⟩ := List.exists_cons_of_ne_nil he
  constructor
  · have hfind := foldl_argmax_first x xs
    refine ⟨(xs.map Prod.snd).foldl max x.2,
      xs.foldl (fun best p => if best.2 < p.2 then p else best) x, ?_, ?_, ?_, ?_, ?_⟩
    · rw [hxs]; rfl
    · rw [hxs]; exact List.mem_of_find?_eq_some hfind
    · exact eq_of_beq (@List.find?_some (Int × ℚ)
        (fun q => q.2 == (xs.map Prod.snd).foldl max x.2) _ _ hfind)
    · unfold Electricity.highest_usage_price_time get_pricetime_max
      rw [hxs]; rfl
    · rw [hxs]; exact hfind
  · have hfind := foldl_argmin_first x xs
    refine ⟨(xs.map Prod.snd).foldl min x.2,
      xs.foldl (fun best p => if p.2 < best.2 then p else best) x, ?_, ?_, ?_, ?_, ?_⟩
    · rw [hxs]; rfl
    · rw [hxs]; exact List.mem_of_find?_eq_some hfind
    · exact eq_of_beq (@List.find?_some (Int × ℚ)
        (fun q => q.2 == (xs.map Prod.snd).foldl min x.2) _ _ hfind)
    · unfold Electricity.lowest_usage_price_time get_pricetime_min
      rw [hxs]; rfl
    · rw [hxs]; exact hfind

/-- C9 witness at a concrete series with a tied maximum: the accessors
pick the first extreme point in iteration order. -/
theorem pricetime_extreme_first_witness :
    (∃ M p, pyMax ((Electricity.mk [((0 : Int), (3 : ℚ)), (60, 3), (120, 1)] []).usage_prices.map Prod.snd) = some M ∧
      p ∈ (Electricity.mk [((0 : Int), (3 : ℚ)), (60, 3), (120, 1)] []).usage_prices ∧
      p.2 = M ∧
      (Electricity.mk [((0 : Int), (3 : ℚ)), (60, 3), (120, 1)] []).highest_usage_price_time = some p.1 ∧
      (Electricity.mk [((0 : Int), (3 : ℚ)), (60, 3), (120, 1)] []).usage_prices.find? (fun q => q.2 == M) = some p) ∧
    (∃ m p, pyMin ((Electricity.mk [((0 : Int), (3 : ℚ)), (60, 3), (120, 1)] []).usage_prices.map Prod.snd) = some m ∧
      p ∈ (Electricity.mk [((0 : Int), (3 : ℚ)), (60, 3), (120, 1)] []).usage_prices ∧
      p.2 = m ∧
      (Electricity.mk [((0 : Int), (3 : ℚ)), (60, 3), (120, 1)] []).lowest_usage_price_time = some p.1 ∧
      (Electricity.mk [((0 : Int), (3 : ℚ)), (60, 3), (120, 1)] []).usage_prices.find? (fun q => q.2 == m) = some p) :=
  pricetime_extreme_first
    (Electricity.mk [((0 : Int), (3 : ℚ)), (60, 3), (120, 1)] [])
    (List.cons_ne_nil _ _)

end EasyEnergy

namespace EasyEnergy

theorem pct_of_max_unfold (e : Electricity) (now : Int) (mn mx : ℚ)
    (hx : e.extreme_usage_prices = some (mn, mx)) (h0 : mx ≠ 0) :
    e.pct_of_max_usage now =
      some (round2 ((e.current_usage_price now).getD 0 / mx * 100)) := by
  unfold Electricity.pct_of_max_usage
  rw [hx]
  exact if_neg h0

/-- C5: pct_of_max_usage is round((current or 0) / max * 100, 2); when
no bucket covers the instant the current price is treated as 0 and the
result is 0 rather than a failure (given a non-zero maximum, since a
zero maximum would divide by zero); and the result lies in [0, 100]
whenever the current-or-zero price is non-negative and at most the
maximum. -/
theorem pct_of_max_semantics (e : Electricity) (now : Int) (mn mx : ℚ)
    (hx : e.extreme_usage_prices = some (mn, mx)) (h0 : mx ≠ 0) :
    (e.pct_of_max_usage now =
      some (round2 ((e.current_usage_price now).getD 0 / mx * 100))) ∧
    ((∀ p ∈ e.usage_prices, ¬(p.1 ≤ now ∧ now < p.1 + 60)) →
      e.pct_of_max_usage now = some 0) ∧
    (0 ≤ (e.current_usage_price now).getD 0 →
      (e.current_usage_price now).getD 0 ≤ mx →
      ∃ v, e.pct_of_max_usage now = some v ∧ 0 ≤ v ∧ v ≤ 100) := by
  refine ⟨pct_of_max_unfold e now mn mx hx h0, ?_, ?_⟩
  · intro hno
    have hc0 : (e.current_usage_price now).getD 0 = 0 := by
      unfold Electricity.current_usage_price
      rw [price_at_time_eq_timed_value, timed_value_eq_lastMatch]
      have hsel : (if ("usage" == "return") = true
          then e.return_prices else e.usage_prices) = e.usage_prices := rfl
      rw [hsel, lastMatchPrice_none now _ hno]
      rfl
    rw [pct_of_max_unfold e now mn mx hx h0, hc0, zero_div, zero_mul, round2_zero]
  · intro hge hle
    have hcur := pct_of_max_unfold e now mn mx hx h0
    refine ⟨round2 ((e.current_usage_price now).getD 0 / mx * 100), hcur, ?_, ?_⟩
    · have : (0 : ℚ) ≤ (e.current_usage_price now).getD 0 / mx * 100 := by
        have hmx : 0 < mx := lt_of_le_of_ne (le_trans hge hle) (Ne.symm h0)
        positivity
      calc (0 : ℚ) = round2 0 := round2_zero.symm
      _ ≤ round2 ((e.current_usage_price now).getD 0 / mx * 100) := round2_mono this
    · have hmx : 0 < mx := lt_of_le_of_ne (le_trans hge hle) (Ne.symm h0)
      have h1 : (e.current_usage_price now).getD 0 / mx ≤ 1 :=
        (div_le_one hmx).mpr hle
      have h2 : (e.current_usage_price now).getD 0 / mx * 100 ≤ 100 := by
        nlinarith
      calc round2 ((e.current_usage_price now).getD 0 / mx * 100) ≤ round2 100 :=
        round2_mono h2
      _ = 100 := round2_hundred

/-- C5 witness: a single point priced 2 at hour 0; at instant 10 the
current price 2 yields a percentage within [0, 100], and at instant 500
(outside every bucket) the percentage is 0. -/
theorem pct_of_max_semantics_witness :
    (Electricity.mk [((0 : Int), (2 : ℚ))] [((0 : Int), (2 : ℚ))]).extreme_usage_prices = some (2, 2) ∧
    (∃ v, (Electricity.mk [((0 : Int), (2 : ℚ))] [((0 : Int), (2 : ℚ))]).pct_of_max_usage 10 = some v ∧
      0 ≤ v ∧ v ≤ 100) ∧
    (Electricity.mk [((0 : Int), (2 : ℚ))] [((0 : Int), (2 : ℚ))]).pct_of_max_usage 500 = some 0 := by
  have hx : (Electricity.mk [((0 : Int), (2 : ℚ))] [((0 : Int), (2 : ℚ))]).extreme_usage_prices = some (2, 2) := by
    norm_num [Electricity.extreme_usage_prices, pyMin, pyMax, round5, pyRound, rhe]
  have hcur : ((Electricity.mk [((0 : Int), (2 : ℚ))] [((0 : Int), (2 : ℚ))]).current_usage_price 10).getD 0 = 2 := by
    norm_num [Electricity.current_usage_price, Electricity.price_at_time,
      timed_value, round5, pyRound, rhe]
    simp
  refine ⟨hx, ?_, ?_⟩
  · exact (pct_of_max_semantics _ 10 2 2 hx (by norm_num)).2.2
      (by rw [hcur]; norm_num) (by rw [hcur])
  · exact (pct_of_max_semantics _ 500 2 2 hx (by norm_num)).2.1 (by decide)

end EasyEnergy

namespace EasyEnergy

/-- C3: the gas window normalizer branches on the local wall-clock hour
of the call: during 6..23 the window is start_date 06:00 local in UTC
up to end_date 06:00 local in UTC plus one day; during 0..5 it is one
day earlier on the start side and end_date 06:00 local in UTC. -/
theorem gas_window_hour_branches (h s e off : Int) :
    (6 ≤ h → h ≤ 23 → gasWindow h s e off = specGasWindowDay s e off) ∧
    (0 ≤ h → h < 6 → gasWindow h s e off = specGasWindowNight s e off) := by
  constructor
  · intro h1 h2
    unfold gasWindow specGasWindowDay
    rw [if_pos ⟨h1, h2⟩]
  · intro h1 h2
    unfold gasWindow specGasWindowNight
    rw [if_neg]
    intro hc
    omega

/-- C3 witness: at local hour 15 (UTC offset 0) the window for day 0 is
[06:00, 06:00 next day]; at local hour 4 it is [06:00 previous day,
06:00]. -/
theorem gas_window_hour_branches_witness :
    gasWindow 15 0 0 0 = (360, 1800) ∧ gasWindow 4 0 0 0 = (-1080, 360) :=
  ⟨((gas_window_hour_branches 15 0 0 0).1 (by decide) (by decide)).trans (by decide),
   ((gas_window_hour_branches 4 0 0 0).2 (by decide) (by decide)).trans (by decide)⟩

/-- C4 counterexample: the claimed electricity window, start_date 00:00
local minus one hour in UTC with end_date 00:00 local plus one day in
UTC, matches neither normalizer: the current client applies no one-hour
padding on the start, and the legacy module ends at 23:00 of the end
date rather than midnight plus one day. -/
theorem energy_window_counterexample :
    energyWindow 0 0 0 ≠ specEnergyWindow 0 0 0 ∧
    energyWindowLegacy 0 0 ≠ specEnergyWindow 0 0 0 ∧
    energyWindow 0 0 0 = (0, 1440) ∧
    specEnergyWindow 0 0 0 = (-60, 1440) ∧
    energyWindowLegacy 0 0 = (-60, 1380) := by
  refine ⟨?_, ?_, rfl, rfl, rfl⟩ <;> decide

/-- C4 amended: the current client emits start = start_date 00:00 local
converted to UTC with no padding and end = end_date 00:00 local in UTC
plus one day, while the legacy module emits start = start_date 00:00
naive-UTC minus one hour and end = end_date 23:00 naive-UTC. -/
theorem energy_window_characterization (s e off : Int) :
    energyWindow s e off = (localToUTC s 0 off, localToUTC e 0 off + 1440) ∧
    energyWindowLegacy s e = (s * 1440 - 60, e * 1440 + 1380) := by
  constructor
  · rfl
  · unfold energyWindowLegacy
    norm_num

/-- C1 counterexample: Electricity.from_dict and Gas.from_dict applied
to an empty record list silently return models with empty mappings;
they perform no validation of their own. -/
theorem from_dict_empty_counterexample :
    (Electricity.from_dict []).usage_prices = [] ∧
    (Electricity.from_dict []).return_prices = [] ∧
    (Gas.from_dict []).prices = [] :=
  ⟨rfl, rfl, rfl⟩

/-- C1 amended: every entry-point call whose fetched record list is
empty fails with the no-data error before any model is built, and a
non-empty list always builds the model from the records; the emptiness
guard lives at the entry points, not inside from_dict. -/
theorem no_data_guard_at_entry_points :
    energyPricesLogic [] = Except.error "No energy prices found for this period." ∧
    gasPricesLogic [] = Except.error "No gas prices found for this period." ∧
    (∀ data : List EnergyRecord, data ≠ [] →
      energyPricesLogic data = Except.ok (Electricity.from_dict data)) ∧
    (∀ data : List GasRecord, data ≠ [] →
      gasPricesLogic data = Except.ok (Gas.from_dict data)) := by
  refine ⟨rfl, rfl, ?_, ?_⟩
  · intro data hd
    unfold energyPricesLogic
    rw [if_neg (fun h => hd (List.length_eq_zero.mp h))]
  · intro data hd
    unfold gasPricesLogic
    rw [if_neg (fun h => hd (List.length_eq_zero.mp h))]

/-- C1 witness: one-record lists pass the guard and construct models. -/
theorem no_data_guard_at_entry_points_witness :
    energyPricesLogic [⟨0, 1, 2⟩] = Except.ok (Electricity.from_dict [⟨0, 1, 2⟩]) ∧
    gasPricesLogic [⟨0, 5⟩] = Except.ok (Gas.from_dict [⟨0, 5⟩]) :=
  ⟨no_data_guard_at_entry_points.2.2.1 [⟨0, 1, 2⟩] (List.cons_ne_nil _ _),
   no_data_guard_at_entry_points.2.2.2 [⟨0, 5⟩] (List.cons_ne_nil _ _)⟩

end EasyEnergy

namespace EasyEnergy

/-- C5 counterexample: on a series whose only price is 0, the rounded
maximum is 0, and at an instant outside every bucket pct_of_max_usage
divides zero by zero and fails (none) instead of returning 0.0. -/
theorem pct_of_max_zero_max_counterexample :
    (Electricity.mk [((0 : Int), (0 : ℚ))] [((0 : Int), (0 : ℚ))]).pct_of_max_usage 500 = none ∧
    (∀ p ∈ (Electricity.mk [((0 : Int), (0 : ℚ))] [((0 : Int), (0 : ℚ))]).usage_prices,
      ¬(p.1 ≤ 500 ∧ 500 < p.1 + 60)) := by
  constructor
  · have hx : (Electricity.mk [((0 : Int), (0 : ℚ))] [((0 : Int), (0 : ℚ))]).extreme_usage_prices = some (0, 0) := by
      norm_num [Electricity.extreme_usage_prices, pyMin, pyMax, round5, pyRound, rhe]
    unfold Electricity.pct_of_max_usage
    rw [hx]
    simp
  · decide

end EasyEnergy
